import Mathlib

/-!
Shallow embedding of the CMS-response normalization helpers and the
draft-preview endpoints of the agrobank-demo-preview repository.

JavaScript values reaching these helpers are modelled by the inductive
type `Json`; JavaScript truthiness, property access and the `in`
operator are modelled explicitly.  The helpers are translated from
`src/app/blog/[slug]/page.tsx`, `src/app/about/page.tsx`, and the two
route handlers of the preview API.
-/

namespace Agrobank

/-- A JSON-like JavaScript value.  `undefined` is represented by the
absence of a key (property lookup returns `Option Json`); `null` is the
explicit `Json.null`.  Numbers are modelled as integers (no float enters
the normalization logic). -/
inductive Json where
  | null : Json
  | bool : Bool → Json
  | num : Int → Json
  | str : String → Json
  | arr : List Json → Json
  | obj : List (String × Json) → Json
deriving Repr

/-- JavaScript truthiness of a value: `null`, `false`, `0` and the empty
string are falsy; every array and object is truthy. -/
def Json.truthy : Json → Bool
  | .null => false
  | .bool b => b
  | .num n => n ≠ 0
  | .str s => s ≠ ""
  | .arr _ => true
  | .obj _ => true

/-- Truthiness of an optional value: a missing value (`undefined`) is falsy. -/
def optTruthy : Option Json → Bool
  | none => false
  | some v => v.truthy

/-- `typeof v === 'object'` in JavaScript: true for objects, arrays and
`null`. -/
def Json.isObjectTypeof : Json → Bool
  | .obj _ => true
  | .arr _ => true
  | .null => true
  | _ => false

/-- First-match lookup of a key in an object's field list. -/
def lookupField : List (String × Json) → String → Option Json
  | [], _ => none
  | (k, v) :: rest, key => if k = key then some v else lookupField rest key

/-- Property access `v[key]`: `undefined` (`none`) on non-objects and on
missing keys. -/
def Json.getField : Json → String → Option Json
  | .obj fs, key => lookupField fs key
  | _, _ => none

/-- The JavaScript `key in v` test (key presence, regardless of the
value's truthiness). -/
def Json.hasKey (v : Json) (key : String) : Bool :=
  (v.getField key).isSome

/-- Property access that also applies the JavaScript truthiness test
used by `if (record.attributes)` / `if (record.data)`: yields the value
only when the key is present and its value is truthy. -/
def Json.getTruthyField (v : Json) (key : String) : Option Json :=
  match v.getField key with
  | some w => if w.truthy then some w else none
  | none => none

mutual

/-- Structural size of a `Json` value, used as the termination measure
for the recursive normalizers. -/
def Json.size : Json → Nat
  | .null => 1
  | .bool _ => 1
  | .num _ => 1
  | .str _ => 1
  | .arr xs => 1 + Json.sizeList xs
  | .obj fs => 1 + Json.sizeFields fs

/-- Sum of sizes of the elements of an array. -/
def Json.sizeList : List Json → Nat
  | [] => 0
  | x :: xs => Json.size x + Json.sizeList xs

/-- Sum of sizes of the values of an object's fields. -/
def Json.sizeFields : List (String × Json) → Nat
  | [] => 0
  | (_, v) :: fs => Json.size v + Json.sizeFields fs

end

theorem Json.size_pos (v : Json) : 0 < v.size := by
  cases v <;> simp [Json.size]

theorem Json.size_lt_of_mem {x : Json} {xs : List Json} (h : x ∈ xs) :
    x.size < (Json.arr xs).size := by
  induction xs with
  | nil => cases h
  | cons y ys ih =>
    rcases List.mem_cons.mp h with rfl | h
    · simp only [Json.size, Json.sizeList]
      omega
    · have := ih h
      simp only [Json.size, Json.sizeList] at this ⊢
      omega

theorem Json.size_le_of_lookup {fs : List (String × Json)} {key : String}
    {v : Json} (h : lookupField fs key = some v) :
    v.size ≤ Json.sizeFields fs := by
  induction fs with
  | nil => simp [lookupField] at h
  | cons p ps ih =>
    obtain ⟨k, w⟩ := p
    by_cases hk : k = key
    · simp [lookupField, hk] at h
      subst h
      simp only [Json.sizeFields]
      omega
    · simp [lookupField, hk] at h
      have := ih h
      simp only [Json.sizeFields]
      omega

theorem Json.size_lt_of_getTruthyField {v d : Json} {key : String}
    (h : v.getTruthyField key = some d) : d.size < v.size := by
  unfold Json.getTruthyField at h
  cases v with
  | obj fs =>
    simp only [Json.getField] at h
    cases hl : lookupField fs key with
    | none => rw [hl] at h; simp at h
    | some w =>
      rw [hl] at h
      by_cases hw : w.truthy
      · simp [hw] at h
        subst h
        have := Json.size_le_of_lookup hl
        simp [Json.size]
        omega
      · simp [hw] at h
  | null => simp [Json.getField] at h
  | bool b => simp [Json.getField] at h
  | num n => simp [Json.getField] at h
  | str s => simp [Json.getField] at h
  | arr xs => simp [Json.getField] at h

/-- `extractMediaItems` of `src/app/blog/[slug]/page.tsx`: the falsy
check (`if (!value) return []`), then the array case (map, flatten one
level, filter out falsy), then the plain-string case, then the object
case with the `attributes` / `data` / `url`-or-`formats` precedence;
anything else yields the empty list.  The source's leading falsy check
is resolved per constructor here: `null`, `false`, `0` and `""` are the
falsy values, arrays and objects are always truthy, and a truthy
boolean or number falls through every branch to the final `return []`. -/
def extractMediaItems (v : Json) : List Json :=
  match v with
  | .null => []
  | .bool _ => []
  | .num _ => []
  | .str s => if s = "" then [] else [Json.obj [("url", Json.str s)]]
  | .arr xs =>
      ((xs.attach.map (fun x => extractMediaItems x.1)).flatten).filter Json.truthy
  | .obj fs =>
      match h2 : (Json.obj fs).getTruthyField "attributes" with
      | some a => [a]
      | none =>
        match h3 : (Json.obj fs).getTruthyField "data" with
        | some d => extractMediaItems d
        | none =>
          if (Json.obj fs).hasKey "url" ∨ (Json.obj fs).hasKey "formats" then
            [Json.obj fs]
          else []
termination_by v.size
decreasing_by
  · exact Json.size_lt_of_mem x.2
  · exact Json.size_lt_of_getTruthyField h3

/-- `extractMediaItems` of `src/app/about/page.tsx`: identical to the
blog-page version except that it has no plain-string case (after the
array test it goes straight to the `typeof value === 'object'` test),
so every string — truthy or not — falls through to the final
`return []`. -/
def extractMediaItemsAbout (v : Json) : List Json :=
  match v with
  | .null => []
  | .bool _ => []
  | .num _ => []
  | .str _ => []
  | .arr xs =>
      ((xs.attach.map (fun x => extractMediaItemsAbout x.1)).flatten).filter Json.truthy
  | .obj fs =>
      match h2 : (Json.obj fs).getTruthyField "attributes" with
      | some a => [a]
      | none =>
        match h3 : (Json.obj fs).getTruthyField "data" with
        | some d => extractMediaItemsAbout d
        | none =>
          if (Json.obj fs).hasKey "url" ∨ (Json.obj fs).hasKey "formats" then
            [Json.obj fs]
          else []
termination_by v.size
decreasing_by
  · exact Json.size_lt_of_mem x.2
  · exact Json.size_lt_of_getTruthyField h3

/-- `Array.isArray`. -/
def Json.isArr : Json → Bool
  | .arr _ => true
  | _ => false

/-- `getEntityAttributes` of `src/app/blog/[slug]/page.tsx`: `null` for
falsy or non-object input; the `attributes` value when that key is
present with a truthy object value; otherwise the record itself. -/
def getEntityAttributes (entity : Json) : Option Json :=
  if !entity.truthy || !entity.isObjectTypeof then none
  else
    match entity.getField "attributes" with
    | some a => if a.truthy && a.isObjectTypeof then some a else some entity
    | none => some entity

/-- `getRelation` of `src/app/blog/[slug]/page.tsx`: `null` for falsy or
non-object input; if the value carries a `data` key, `null` when that
data is falsy or an array, else `getEntityAttributes` of the data;
without a `data` key, `getEntityAttributes` of the value itself. -/
def getRelation (value : Json) : Option Json :=
  if !value.truthy || !value.isObjectTypeof then none
  else
    match value.getField "data" with
    | some d => if !d.truthy || d.isArr then none else getEntityAttributes d
    | none => getEntityAttributes value

/-- One entry of the `formats` record of a media asset
(`{ url?: string }` in the source). -/
structure FormatVariant where
  url : Option String
deriving Repr, DecidableEq

/-- The fields of the `MediaAsset` type that `getMediaUrl` reads: the
root `url` and the `formats` record (`Record<string, {url?: string} |
undefined>`); its other fields (alt text, caption, dimensions, ...) are
never touched by `getMediaUrl` and are omitted. -/
structure MediaAsset where
  url : Option String
  formats : Option (List (String × Option FormatVariant))
deriving Repr, DecidableEq

/-- Lookup in the `formats` record; a missing key and a key stored with
an `undefined` value both yield `undefined`. -/
def formatsLookup : List (String × Option FormatVariant) → String → Option FormatVariant
  | [], _ => none
  | (k, v) :: rest, key => if k = key then v else formatsLookup rest key

/-- `asset.formats?.<name>?.url` via optional chaining. -/
def MediaAsset.formatUrl (a : MediaAsset) (name : String) : Option String :=
  match a.formats with
  | none => none
  | some fs =>
    match formatsLookup fs name with
    | none => none
    | some fv => fv.url

/-- JavaScript `a || b` on string-or-nullish values: the empty string is
falsy and falls through to `b`. -/
def jsOrStr (a b : Option String) : Option String :=
  match a with
  | some s => if s = "" then b else some s
  | none => b

/-- JavaScript `s.startsWith(p)`, modelled on the character lists of
the two strings (Lean's own `String.startsWith` is not usable here
because it does not reduce in the kernel). -/
def jsStartsWith (s p : String) : Bool :=
  p.data.isPrefixOf s.data

/-- `withBaseUrl` of `src/app/blog/[slug]/page.tsx` (and identically of
`src/app/about/page.tsx`), parameterized by the configured CMS origin
(`STRAPI_API_URL`): `null` for falsy input, absolute `http(s)` URLs
unchanged, relative URLs prefixed with the origin. -/
def withBaseUrl (base : String) (url : Option String) : Option String :=
  match url with
  | none => none
  | some u =>
    if u = "" then none
    else if jsStartsWith u "http://" || jsStartsWith u "https://" then some u
    else some (base ++ u)

/-- `getMediaUrl` of `src/app/blog/[slug]/page.tsx`: `null` for nullish
input, else `formats?.large?.url || formats?.medium?.url || url`
resolved through `withBaseUrl` (the trailing `|| null` of the source is
the final `jsOrStr _ none`). -/
def getMediaUrl (base : String) (asset : Option MediaAsset) : Option String :=
  match asset with
  | none => none
  | some a =>
    withBaseUrl base
      (jsOrStr (jsOrStr (jsOrStr (a.formatUrl "large") (a.formatUrl "medium")) a.url) none)

/-- Truthiness of a `string | null | undefined` value. -/
def strTruthy : Option String → Bool
  | none => false
  | some s => s != ""

/-- A redirect target built by the enable handler: `new URL(url,
request.url)` followed by `searchParams.set` calls, modelled as the
supplied path plus the ordered list of parameters set on it. -/
structure RedirectTarget where
  url : String
  setParams : List (String × String)
deriving Repr, DecidableEq

/-- Observable outcome of the preview-enable handler: the HTTP status,
whether `draftMode().enable()` was called, and the redirect target if
any. -/
structure EnableResponse where
  status : Nat
  draftEnabled : Bool
  redirect : Option RedirectTarget
deriving Repr, DecidableEq

/-- The `GET` handler of the preview-enable route: 401 when a truthy
`PREVIEW_SECRET` is configured and the supplied secret differs
(strict `!==` against `string | null`); then 400 when `url` is falsy or
does not start with `/`; else `draftMode().enable()` and a redirect to
`url` with `status` and `locale` set as query parameters when truthy. -/
def previewEnable (expectedSecret url secret status locale : Option String) :
    EnableResponse :=
  if strTruthy expectedSecret = true ∧ secret ≠ expectedSecret then
    ⟨401, false, none⟩
  else
    match url with
    | none => ⟨400, false, none⟩
    | some u =>
      if u = "" ∨ jsStartsWith u "/" = false then ⟨400, false, none⟩
      else
        ⟨307, true,
          some ⟨u,
            (match status with
             | some s => if s = "" then [] else [("status", s)]
             | none => []) ++
            (match locale with
             | some l => if l = "" then [] else [("locale", l)]
             | none => [])⟩⟩

/-- Observable outcome of the preview-disable handler. -/
structure DisableResponse where
  status : Nat
  draftDisabled : Bool
  redirectUrl : String
deriving Repr, DecidableEq

/-- The `GET` handler of the preview-disable route: reads `url`
(defaulting to `/` via `|| '/'`), calls `draftMode().disable()`, and
redirects — unconditionally, with no secret and no path check. -/
def previewDisable (url : Option String) : DisableResponse :=
  ⟨307, true,
    match url with
    | some u => if u = "" then "/" else u
    | none => "/"⟩

/-- A query-string parameter as seen by a Next.js page:
`string | string[] | undefined`. -/
inductive QueryParam where
  | absent : QueryParam
  | one : String → QueryParam
  | many : List String → QueryParam
deriving Repr, DecidableEq

/-- The effective status derived by `BlogArticlePage` (and identically
by the about and category pages): the `status` query parameter when it
is a plain string, else `draft` when draft mode is enabled, else
`published`. -/
def effectiveStatus (statusParam : QueryParam) (isDraft : Bool) : String :=
  match statusParam with
  | .one s => s
  | _ => if isDraft then "draft" else "published"

/-- `Option`-collecting map used by the fuel-indexed normalizer. -/
def mapFuel (f : Json → Option (List Json)) : List Json → Option (List (List Json))
  | [] => some []
  | x :: xs =>
    match f x, mapFuel f xs with
    | some y, some ys => some (y :: ys)
    | _, _ => none

/-- Fuel-indexed rendition of the blog-page `extractMediaItems`: each
recursive call consumes one unit of fuel, and exhausted fuel yields
`none`.  Used to state that the recursion terminates within a depth
bounded by the size of the input. -/
def extractMediaItemsFuel : Nat → Json → Option (List Json)
  | 0, _ => none
  | n + 1, v =>
    if v.truthy = false then some []
    else
      match v with
      | .arr xs =>
          (mapFuel (extractMediaItemsFuel n) xs).map
            (fun ls => ls.flatten.filter Json.truthy)
      | .str s => some [Json.obj [("url", Json.str s)]]
      | .obj fs =>
          match (Json.obj fs).getTruthyField "attributes" with
          | some a => some [a]
          | none =>
            match (Json.obj fs).getTruthyField "data" with
            | some d => extractMediaItemsFuel n d
            | none =>
              some
                (if (Json.obj fs).hasKey "url" ∨ (Json.obj fs).hasKey "formats" then
                  [Json.obj fs]
                else [])
      | _ => some []


/-! Equation lemmas for the two media normalizers, one per branch of the
source function. -/

theorem extractMediaItems_falsy {v : Json} (h : v.truthy = false) :
    extractMediaItems v = [] := by
  cases v with
  | null => rw [extractMediaItems]
  | bool b => rw [extractMediaItems]
  | num m => rw [extractMediaItems]
  | str s =>
    have hs : s = "" := by simpa [Json.truthy] using h
    rw [extractMediaItems, if_pos hs]
  | arr xs => simp [Json.truthy] at h
  | obj fs => simp [Json.truthy] at h

theorem extractMediaItems_arr (xs : List Json) :
    extractMediaItems (Json.arr xs) =
      ((xs.map extractMediaItems).flatten).filter Json.truthy := by
  rw [extractMediaItems]
  simp [List.attach_map_val]

theorem extractMediaItems_str {s : String} (h : s ≠ "") :
    extractMediaItems (Json.str s) = [Json.obj [("url", Json.str s)]] := by
  rw [extractMediaItems, if_neg h]

theorem extractMediaItems_obj_attr {fs : List (String × Json)} {a : Json}
    (h : (Json.obj fs).getTruthyField "attributes" = some a) :
    extractMediaItems (Json.obj fs) = [a] := by
  rw [extractMediaItems]
  split
  · rename_i a2 heq
    rw [h] at heq
    exact congrArg (fun x => [x]) (Option.some.inj heq.symm)
  · rename_i heq
    rw [h] at heq
    cases heq

theorem extractMediaItems_obj_data {fs : List (String × Json)} {d : Json}
    (ha : (Json.obj fs).getTruthyField "attributes" = none)
    (hd : (Json.obj fs).getTruthyField "data" = some d) :
    extractMediaItems (Json.obj fs) = extractMediaItems d := by
  rw [extractMediaItems]
  split
  · rename_i a heq
    rw [ha] at heq
    cases heq
  · split
    · rename_i d2 heq
      rw [hd] at heq
      rw [Option.some.inj heq.symm]
    · rename_i heq
      rw [hd] at heq
      cases heq

theorem extractMediaItems_obj_terminal {fs : List (String × Json)}
    (ha : (Json.obj fs).getTruthyField "attributes" = none)
    (hd : (Json.obj fs).getTruthyField "data" = none)
    (hk : (Json.obj fs).hasKey "url" ∨ (Json.obj fs).hasKey "formats") :
    extractMediaItems (Json.obj fs) = [Json.obj fs] := by
  rw [extractMediaItems]
  split
  · rename_i a heq
    rw [ha] at heq
    cases heq
  · split
    · rename_i d heq
      rw [hd] at heq
      cases heq
    · simp [hk]

theorem extractMediaItems_obj_empty {fs : List (String × Json)}
    (ha : (Json.obj fs).getTruthyField "attributes" = none)
    (hd : (Json.obj fs).getTruthyField "data" = none)
    (hk : ¬((Json.obj fs).hasKey "url" ∨ (Json.obj fs).hasKey "formats")) :
    extractMediaItems (Json.obj fs) = [] := by
  rw [extractMediaItems]
  split
  · rename_i a heq
    rw [ha] at heq
    cases heq
  · split
    · rename_i d heq
      rw [hd] at heq
      cases heq
    · simp [hk]

theorem extractMediaItemsAbout_str (s : String) :
    extractMediaItemsAbout (Json.str s) = [] := by
  rw [extractMediaItemsAbout]

theorem extractMediaItemsAbout_arr (xs : List Json) :
    extractMediaItemsAbout (Json.arr xs) =
      ((xs.map extractMediaItemsAbout).flatten).filter Json.truthy := by
  rw [extractMediaItemsAbout]
  simp [List.attach_map_val]

theorem extractMediaItemsAbout_obj_attr {fs : List (String × Json)} {a : Json}
    (h : (Json.obj fs).getTruthyField "attributes" = some a) :
    extractMediaItemsAbout (Json.obj fs) = [a] := by
  rw [extractMediaItemsAbout]
  split
  · rename_i a2 heq
    rw [h] at heq
    exact congrArg (fun x => [x]) (Option.some.inj heq.symm)
  · rename_i heq
    rw [h] at heq
    cases heq

theorem extractMediaItemsAbout_obj_data {fs : List (String × Json)} {d : Json}
    (ha : (Json.obj fs).getTruthyField "attributes" = none)
    (hd : (Json.obj fs).getTruthyField "data" = some d) :
    extractMediaItemsAbout (Json.obj fs) = extractMediaItemsAbout d := by
  rw [extractMediaItemsAbout]
  split
  · rename_i a heq
    rw [ha] at heq
    cases heq
  · split
    · rename_i d2 heq
      rw [hd] at heq
      rw [Option.some.inj heq.symm]
    · rename_i heq
      rw [hd] at heq
      cases heq

theorem extractMediaItemsAbout_obj_terminal {fs : List (String × Json)}
    (ha : (Json.obj fs).getTruthyField "attributes" = none)
    (hd : (Json.obj fs).getTruthyField "data" = none)
    (hk : (Json.obj fs).hasKey "url" ∨ (Json.obj fs).hasKey "formats") :
    extractMediaItemsAbout (Json.obj fs) = [Json.obj fs] := by
  rw [extractMediaItemsAbout]
  split
  · rename_i a heq
    rw [ha] at heq
    cases heq
  · split
    · rename_i d heq
      rw [hd] at heq
      cases heq
    · simp [hk]

theorem extractMediaItemsAbout_obj_empty {fs : List (String × Json)}
    (ha : (Json.obj fs).getTruthyField "attributes" = none)
    (hd : (Json.obj fs).getTruthyField "data" = none)
    (hk : ¬((Json.obj fs).hasKey "url" ∨ (Json.obj fs).hasKey "formats")) :
    extractMediaItemsAbout (Json.obj fs) = [] := by
  rw [extractMediaItemsAbout]
  split
  · rename_i a heq
    rw [ha] at heq
    cases heq
  · split
    · rename_i d heq
      rw [hd] at heq
      cases heq
    · simp [hk]

/-! The fuel-indexed normalizer agrees with the direct one whenever the
fuel is at least the size of the input: the recursion of
`extractMediaItems` terminates within depth `Json.size`. -/

theorem mapFuel_eq_of_forall {n : Nat} {xs : List Json}
    (h : ∀ x ∈ xs, extractMediaItemsFuel n x = some (extractMediaItems x)) :
    mapFuel (extractMediaItemsFuel n) xs = some (xs.map extractMediaItems) := by
  induction xs with
  | nil => simp [mapFuel]
  | cons y ys ih =>
    have hy := h y (by simp)
    have hys := ih (fun x hx => h x (by simp [hx]))
    simp [mapFuel, hy, hys]

theorem extractMediaItemsFuel_eq :
    ∀ (n : Nat) (v : Json), v.size ≤ n →
      extractMediaItemsFuel n v = some (extractMediaItems v) := by
  intro n
  induction n with
  | zero =>
    intro v h
    have := Json.size_pos v
    omega
  | succ n ih =>
    intro v h
    cases v with
    | null =>
      simp [extractMediaItemsFuel, Json.truthy, extractMediaItems]
    | bool b =>
      cases b <;> simp [extractMediaItemsFuel, Json.truthy, extractMediaItems]
    | num m =>
      by_cases hm : (m : Int) = 0 <;>
        simp [extractMediaItemsFuel, Json.truthy, hm, extractMediaItems]
    | str s =>
      rw [extractMediaItemsFuel]
      by_cases hs : s = ""
      · subst hs
        simp [Json.truthy, extractMediaItems_falsy (show (Json.str "").truthy = false from rfl)]
      · rw [extractMediaItems_str hs]
        simp [Json.truthy, hs]
    | arr xs =>
      have hx : ∀ x ∈ xs, extractMediaItemsFuel n x = some (extractMediaItems x) := by
        intro x hmem
        apply ih
        have hlt := Json.size_lt_of_mem hmem
        omega
      rw [extractMediaItemsFuel, extractMediaItems_arr]
      simp [Json.truthy, mapFuel_eq_of_forall hx]
    | obj fs =>
      rw [extractMediaItemsFuel]
      cases ha : (Json.obj fs).getTruthyField "attributes" with
      | some a => simp [Json.truthy, ha, extractMediaItems_obj_attr ha]
      | none =>
        cases hd : (Json.obj fs).getTruthyField "data" with
        | some d =>
          have hlt : d.size < (Json.obj fs).size :=
            Json.size_lt_of_getTruthyField hd
          have hrec := ih d (by omega)
          simp [Json.truthy, ha, hd, hrec, extractMediaItems_obj_data ha hd]
        | none =>
          by_cases hk : (Json.obj fs).hasKey "url" ∨ (Json.obj fs).hasKey "formats"
          · simp [Json.truthy, ha, hd, hk, extractMediaItems_obj_terminal ha hd hk]
          · simp [Json.truthy, ha, hd, hk, extractMediaItems_obj_empty ha hd hk]


/-! ## Claim theorems -/

/-- C1 (counterexample): the claim says an object carrying an
`attributes` key recurses into that key's value; on the input
`{attributes: {data: {url: "/x.png"}}}` the function instead returns the
`attributes` value itself as a singleton, which differs from the result
of recursing into it. -/
theorem extractMediaItems_attributes_no_recursion :
    ¬ (extractMediaItems
         (Json.obj [("attributes", Json.obj [("data", Json.obj [("url", Json.str "/x.png")])])]) =
       extractMediaItems (Json.obj [("data", Json.obj [("url", Json.str "/x.png")])])) := by
  simp [extractMediaItems, Json.getTruthyField, Json.getField, lookupField, Json.hasKey,
    Json.truthy]

/-- C1 (amended): for an object, if the `attributes` key holds a truthy
value the result is that value as a singleton (no recursion); else if
the `data` key holds a truthy value the result equals recursing into it;
else if the object carries a `url` or `formats` key it is returned as a
singleton; any other object yields the empty sequence.  Holds for both
the blog-page and the about-page copies of `extractMediaItems`. -/
theorem extractMediaItems_obj_precedence :
    ∀ (fs : List (String × Json)),
      (∀ a, (Json.obj fs).getTruthyField "attributes" = some a →
        extractMediaItems (Json.obj fs) = [a] ∧
        extractMediaItemsAbout (Json.obj fs) = [a]) ∧
      ((Json.obj fs).getTruthyField "attributes" = none →
        (∀ d, (Json.obj fs).getTruthyField "data" = some d →
          extractMediaItems (Json.obj fs) = extractMediaItems d ∧
          extractMediaItemsAbout (Json.obj fs) = extractMediaItemsAbout d) ∧
        ((Json.obj fs).getTruthyField "data" = none →
          (((Json.obj fs).hasKey "url" ∨ (Json.obj fs).hasKey "formats") →
            extractMediaItems (Json.obj fs) = [Json.obj fs] ∧
            extractMediaItemsAbout (Json.obj fs) = [Json.obj fs]) ∧
          (¬((Json.obj fs).hasKey "url" ∨ (Json.obj fs).hasKey "formats") →
            extractMediaItems (Json.obj fs) = [] ∧
            extractMediaItemsAbout (Json.obj fs) = []))) := by
  intro fs
  exact ⟨fun a ha => ⟨extractMediaItems_obj_attr ha, extractMediaItemsAbout_obj_attr ha⟩,
    fun ha => ⟨fun d hd => ⟨extractMediaItems_obj_data ha hd,
        extractMediaItemsAbout_obj_data ha hd⟩,
      fun hd => ⟨fun hk => ⟨extractMediaItems_obj_terminal ha hd hk,
          extractMediaItemsAbout_obj_terminal ha hd hk⟩,
        fun hk => ⟨extractMediaItems_obj_empty ha hd hk,
          extractMediaItemsAbout_obj_empty ha hd hk⟩⟩⟩⟩

/-- C1 (witness): the amended precedence applied to
`{attributes: {url: "/x.png"}}`. -/
theorem extractMediaItems_obj_precedence_witness :
    extractMediaItems (Json.obj [("attributes", Json.obj [("url", Json.str "/x.png")])]) =
      [Json.obj [("url", Json.str "/x.png")]] ∧
    extractMediaItemsAbout (Json.obj [("attributes", Json.obj [("url", Json.str "/x.png")])]) =
      [Json.obj [("url", Json.str "/x.png")]] :=
  (extractMediaItems_obj_precedence [("attributes", Json.obj [("url", Json.str "/x.png")])]).1
    (Json.obj [("url", Json.str "/x.png")])
    (by simp [Json.getTruthyField, Json.getField, lookupField, Json.truthy])

/-- C2: the three wrapper depths `{data: {attributes: {url}}}`,
`{attributes: {url}}` and `{url}` all normalize to the same singleton
`[{url: "/x.png"}]`, in both copies of `extractMediaItems`. -/
theorem mediaWrapperDepths_normalize_identically :
    (extractMediaItems
        (Json.obj [("data", Json.obj [("attributes", Json.obj [("url", Json.str "/x.png")])])]) =
      [Json.obj [("url", Json.str "/x.png")]]) ∧
    (extractMediaItems (Json.obj [("attributes", Json.obj [("url", Json.str "/x.png")])]) =
      [Json.obj [("url", Json.str "/x.png")]]) ∧
    (extractMediaItems (Json.obj [("url", Json.str "/x.png")]) =
      [Json.obj [("url", Json.str "/x.png")]]) ∧
    (extractMediaItemsAbout
        (Json.obj [("data", Json.obj [("attributes", Json.obj [("url", Json.str "/x.png")])])]) =
      [Json.obj [("url", Json.str "/x.png")]]) ∧
    (extractMediaItemsAbout (Json.obj [("attributes", Json.obj [("url", Json.str "/x.png")])]) =
      [Json.obj [("url", Json.str "/x.png")]]) ∧
    (extractMediaItemsAbout (Json.obj [("url", Json.str "/x.png")]) =
      [Json.obj [("url", Json.str "/x.png")]]) := by
  refine ⟨?_, ?_, ?_, ?_, ?_, ?_⟩ <;>
    simp [extractMediaItems, extractMediaItemsAbout, Json.getTruthyField, Json.getField,
      lookupField, Json.hasKey, Json.truthy]

/-- C3: `getMediaUrl` returns `null` on nullish input; otherwise it
selects `formats.large.url`, else `formats.medium.url`, else the root
`url`, and resolves the selection through `withBaseUrl`, which returns
`http(s)://` URLs unchanged and prefixes relative URLs with the
configured CMS origin. -/
theorem getMediaUrl_contract :
    ∀ (base : String),
      getMediaUrl base none = none ∧
      (∀ (a : MediaAsset) (u : String), a.formatUrl "large" = some u → u ≠ "" →
        getMediaUrl base (some a) = withBaseUrl base (some u)) ∧
      (∀ (a : MediaAsset) (u : String),
        (a.formatUrl "large" = none ∨ a.formatUrl "large" = some "") →
        a.formatUrl "medium" = some u → u ≠ "" →
        getMediaUrl base (some a) = withBaseUrl base (some u)) ∧
      (∀ (a : MediaAsset) (u : String),
        (a.formatUrl "large" = none ∨ a.formatUrl "large" = some "") →
        (a.formatUrl "medium" = none ∨ a.formatUrl "medium" = some "") →
        a.url = some u →
        getMediaUrl base (some a) = withBaseUrl base (some u)) ∧
      (∀ u : String, (jsStartsWith u "http://" = true ∨ jsStartsWith u "https://" = true) →
        withBaseUrl base (some u) = some u) ∧
      (∀ u : String, u ≠ "" → jsStartsWith u "http://" = false →
        jsStartsWith u "https://" = false →
        withBaseUrl base (some u) = some (base ++ u)) := by
  intro base
  refine ⟨rfl, ?_, ?_, ?_, ?_, ?_⟩
  · intro a u h hu
    simp [getMediaUrl, jsOrStr, h, hu]
  · intro a u h1 h2 hu
    rcases h1 with h1 | h1 <;> simp [getMediaUrl, jsOrStr, h1, h2, hu]
  · intro a u h1 h2 hu
    rcases h1 with h1 | h1 <;> rcases h2 with h2 | h2 <;>
      by_cases he : u = "" <;>
        simp [getMediaUrl, withBaseUrl, jsOrStr, h1, h2, hu, he]
  · intro u hu
    rcases hu with h1 | h1
    · have hne : u ≠ "" := by
        intro he
        subst he
        exact absurd h1 (by decide)
      simp [withBaseUrl, hne, h1]
    · have hne : u ≠ "" := by
        intro he
        subst he
        exact absurd h1 (by decide)
      simp [withBaseUrl, hne, h1]
  · intro u hne h1 h2
    simp [withBaseUrl, hne, h1, h2]

/-- C3 (witness): with both `large` and `medium` variants and a root
URL present, `large` wins and is base-resolved. -/
theorem getMediaUrl_contract_witness :
    getMediaUrl "http://localhost:1337"
      (some ⟨some "/c.png",
        some [("large", some ⟨some "/a.png"⟩), ("medium", some ⟨some "/b.png"⟩)]⟩) =
      withBaseUrl "http://localhost:1337" (some "/a.png") :=
  (getMediaUrl_contract "http://localhost:1337").2.1
    ⟨some "/c.png", some [("large", some ⟨some "/a.png"⟩), ("medium", some ⟨some "/b.png"⟩)]⟩
    "/a.png" (by simp [MediaAsset.formatUrl, formatsLookup]) (by decide)

/-- C4: `getRelation` returns `null` when the `data` key holds an array
(many-relation) or `null`; a single `data` record is unwrapped one level
through `getEntityAttributes` (the `attributes` value when it is a
truthy object, else the record itself), and a value with no `data` key
goes through `getEntityAttributes` directly. -/
theorem getRelation_contract :
    (∀ (fs : List (String × Json)) (ds : List Json),
      lookupField fs "data" = some (Json.arr ds) → getRelation (Json.obj fs) = none) ∧
    (∀ fs : List (String × Json),
      lookupField fs "data" = some Json.null → getRelation (Json.obj fs) = none) ∧
    (∀ (fs gs : List (String × Json)),
      lookupField fs "data" = some (Json.obj gs) →
      getRelation (Json.obj fs) = getEntityAttributes (Json.obj gs)) ∧
    (∀ fs : List (String × Json),
      lookupField fs "data" = none →
      getRelation (Json.obj fs) = getEntityAttributes (Json.obj fs)) ∧
    (∀ (gs : List (String × Json)) (a : Json),
      lookupField gs "attributes" = some a → a.truthy = true →
      a.isObjectTypeof = true → getEntityAttributes (Json.obj gs) = some a) ∧
    (∀ gs : List (String × Json),
      (∀ a, lookupField gs "attributes" = some a →
        ¬(a.truthy = true ∧ a.isObjectTypeof = true)) →
      getEntityAttributes (Json.obj gs) = some (Json.obj gs)) := by
  refine ⟨?_, ?_, ?_, ?_, ?_, ?_⟩
  · intro fs ds h
    simp [getRelation, Json.truthy, Json.isObjectTypeof, Json.getField, h, Json.isArr]
  · intro fs h
    simp [getRelation, Json.truthy, Json.isObjectTypeof, Json.getField, h]
  · intro fs gs h
    simp [getRelation, Json.truthy, Json.isObjectTypeof, Json.getField, h, Json.isArr]
  · intro fs h
    simp [getRelation, Json.truthy, Json.isObjectTypeof, Json.getField, h]
  · intro gs a hl ht ho
    have hb : (a.truthy && a.isObjectTypeof) = true := by rw [ht, ho]; rfl
    simp [getEntityAttributes, Json.getField, hl, hb,
      show (Json.obj gs).truthy = true from rfl,
      show (Json.obj gs).isObjectTypeof = true from rfl]
  · intro gs h
    cases hl : lookupField gs "attributes" with
    | none =>
      simp [getEntityAttributes, Json.getField, hl,
        show (Json.obj gs).truthy = true from rfl,
        show (Json.obj gs).isObjectTypeof = true from rfl]
    | some a =>
      have hna := h a hl
      have hb : (a.truthy && a.isObjectTypeof) = false := by
        cases ht : a.truthy <;> cases ho : a.isObjectTypeof <;> simp_all
      simp [getEntityAttributes, Json.getField, hl, hb,
        show (Json.obj gs).truthy = true from rfl,
        show (Json.obj gs).isObjectTypeof = true from rfl]

/-- C4 (witness): a many-relation `{data: [{...}, {...}]}` resolves to
`null`, never to the first element. -/
theorem getRelation_contract_witness :
    getRelation (Json.obj [("data",
      Json.arr [Json.obj [("name", Json.str "a")], Json.obj [("name", Json.str "b")]])]) =
      none :=
  getRelation_contract.1
    [("data", Json.arr [Json.obj [("name", Json.str "a")], Json.obj [("name", Json.str "b")]])]
    [Json.obj [("name", Json.str "a")], Json.obj [("name", Json.str "b")]]
    (by simp [lookupField])


/-! Shape lemmas for the enable handler, one per form of the `url`
parameter. -/

theorem previewEnable_none (es secret status locale : Option String) :
    previewEnable es none secret status locale =
      if strTruthy es = true ∧ secret ≠ es then ⟨401, false, none⟩
      else ⟨400, false, none⟩ := by
  by_cases h : strTruthy es = true ∧ secret ≠ es
  · rw [previewEnable.eq_def, if_pos h]
  · rw [previewEnable.eq_def, if_neg h]

theorem previewEnable_some (es : Option String) (u : String)
    (secret status locale : Option String) :
    previewEnable es (some u) secret status locale =
      if strTruthy es = true ∧ secret ≠ es then ⟨401, false, none⟩
      else if u = "" ∨ jsStartsWith u "/" = false then ⟨400, false, none⟩
      else
        ⟨307, true,
          some ⟨u,
            (match status with
             | some s => if s = "" then [] else [("status", s)]
             | none => []) ++
            (match locale with
             | some l => if l = "" then [] else [("locale", l)]
             | none => [])⟩⟩ := by
  by_cases h : strTruthy es = true ∧ secret ≠ es
  · rw [previewEnable.eq_def, if_pos h]
  · rw [previewEnable.eq_def, if_neg h]

/-- C5: the enable endpoint fails closed — a configured secret that does
not match the supplied one yields 401 with the draft flag untouched; a
passing secret check with a missing or non-rooted `url` yields 400 with
the draft flag untouched; and the secret check precedes the url check,
so a request failing both gets 401. -/
theorem previewEnable_fails_closed :
    ∀ (es url secret status locale : Option String),
      (strTruthy es = true → secret ≠ es →
        (previewEnable es url secret status locale).status = 401 ∧
        (previewEnable es url secret status locale).draftEnabled = false) ∧
      (¬(strTruthy es = true ∧ secret ≠ es) →
        (∀ u, url = some u → jsStartsWith u "/" = false) →
        (previewEnable es url secret status locale).status = 400 ∧
        (previewEnable es url secret status locale).draftEnabled = false) ∧
      (strTruthy es = true → secret ≠ es →
        (∀ u, url = some u → jsStartsWith u "/" = false) →
        (previewEnable es url secret status locale).status = 401 ∧
        (previewEnable es url secret status locale).draftEnabled = false) := by
  intro es url secret status locale
  refine ⟨?_, ?_, ?_⟩
  · intro h1 h2
    cases url with
    | none => rw [previewEnable_none, if_pos ⟨h1, h2⟩]; exact ⟨rfl, rfl⟩
    | some u => rw [previewEnable_some, if_pos ⟨h1, h2⟩]; exact ⟨rfl, rfl⟩
  · intro h1 hu
    cases url with
    | none => rw [previewEnable_none, if_neg h1]; exact ⟨rfl, rfl⟩
    | some u =>
      rw [previewEnable_some, if_neg h1, if_pos (Or.inr (hu u rfl))]
      exact ⟨rfl, rfl⟩
  · intro h1 h2 hu
    cases url with
    | none => rw [previewEnable_none, if_pos ⟨h1, h2⟩]; exact ⟨rfl, rfl⟩
    | some u => rw [previewEnable_some, if_pos ⟨h1, h2⟩]; exact ⟨rfl, rfl⟩

/-- C5 (witness): wrong secret together with a non-rooted url gets 401,
not 400, and no draft enablement. -/
theorem previewEnable_fails_closed_witness :
    (previewEnable (some "s3cret") (some "http://evil.example/x") (some "wrong")
        none none).status = 401 ∧
    (previewEnable (some "s3cret") (some "http://evil.example/x") (some "wrong")
        none none).draftEnabled = false :=
  (previewEnable_fails_closed (some "s3cret") (some "http://evil.example/x") (some "wrong")
      none none).2.2 (by decide) (by decide)
    (fun u hu => by cases hu; decide)

/-- C6: with a passing secret check and a rooted `url`, the enable
endpoint enables the draft flag and redirects to the url, appending
`status` and `locale` as query parameters exactly when they are supplied
(non-empty); a subsequent render without an explicit `status` parameter
then defaults to `draft`. -/
theorem previewEnable_success :
    ∀ (es url secret status locale : Option String) (u : String),
      ¬(strTruthy es = true ∧ secret ≠ es) →
      url = some u → jsStartsWith u "/" = true →
      ((previewEnable es url secret status locale).status = 307 ∧
        (previewEnable es url secret status locale).draftEnabled = true) ∧
      (status = none → locale = none →
        (previewEnable es url secret status locale).redirect = some ⟨u, []⟩) ∧
      (∀ s, status = some s → s ≠ "" → locale = none →
        (previewEnable es url secret status locale).redirect = some ⟨u, [("status", s)]⟩) ∧
      (∀ l, locale = some l → l ≠ "" → status = none →
        (previewEnable es url secret status locale).redirect = some ⟨u, [("locale", l)]⟩) ∧
      (∀ s l, status = some s → s ≠ "" → locale = some l → l ≠ "" →
        (previewEnable es url secret status locale).redirect =
          some ⟨u, [("status", s), ("locale", l)]⟩) ∧
      effectiveStatus QueryParam.absent
        (previewEnable es url secret status locale).draftEnabled = "draft" := by
  intro es url secret status locale u hsec hurl hsw
  subst hurl
  have hbad : ¬(u = "" ∨ jsStartsWith u "/" = false) := by
    rintro (he | hf)
    · subst he
      exact absurd hsw (by decide)
    · rw [hsw] at hf
      cases hf
  rw [previewEnable_some, if_neg hsec, if_neg hbad]
  refine ⟨⟨rfl, rfl⟩, ?_, ?_, ?_, ?_, rfl⟩
  · intro h1 h2
    subst h1; subst h2
    rfl
  · intro s h1 h2 h3
    subst h1; subst h3
    simp [h2]
  · intro l h1 h2 h3
    subst h1; subst h3
    simp [h2]
  · intro s l h1 h2 h3 h4
    subst h1; subst h3
    simp [h2, h4]

/-- C6 (witness): the spec's own example — valid secret,
`url=/blog/foo`, `status=draft`, `locale=en` — redirects to `/blog/foo`
with both parameters forwarded, and the next render defaults to draft. -/
theorem previewEnable_success_witness :
    (previewEnable (some "s3cret") (some "/blog/foo") (some "s3cret")
        (some "draft") (some "en")).redirect =
      some ⟨"/blog/foo", [("status", "draft"), ("locale", "en")]⟩ ∧
    effectiveStatus QueryParam.absent
      (previewEnable (some "s3cret") (some "/blog/foo") (some "s3cret")
        (some "draft") (some "en")).draftEnabled = "draft" :=
  ⟨((previewEnable_success (some "s3cret") (some "/blog/foo") (some "s3cret")
        (some "draft") (some "en") "/blog/foo" (by simp) rfl (by decide)).2.2.2.2.1
      "draft" "en" rfl (by decide) rfl (by decide)),
    (previewEnable_success (some "s3cret") (some "/blog/foo") (some "s3cret")
        (some "draft") (some "en") "/blog/foo" (by simp) rfl (by decide)).2.2.2.2.2⟩

/-- C7: the disable endpoint is unconditional — for every request it
disables the draft flag and redirects to the supplied `url` (any string,
with no secret check and no path-prefix validation), defaulting to `/`
when the parameter is absent. -/
theorem previewDisable_unconditional :
    ∀ (url : Option String),
      (previewDisable url).status = 307 ∧
      (previewDisable url).draftDisabled = true ∧
      (∀ u, url = some u → u ≠ "" → (previewDisable url).redirectUrl = u) ∧
      (url = none → (previewDisable url).redirectUrl = "/") := by
  intro url
  refine ⟨rfl, rfl, ?_, ?_⟩
  · intro u hu hne
    subst hu
    simp [previewDisable, hne]
  · intro h
    subst h
    rfl

/-- C7 (witness): even a non-rooted absolute url is redirected to
unchanged, and an absent url defaults to `/`. -/
theorem previewDisable_unconditional_witness :
    (previewDisable (some "http://evil.example/x")).redirectUrl = "http://evil.example/x" ∧
    (previewDisable none).redirectUrl = "/" :=
  ⟨(previewDisable_unconditional (some "http://evil.example/x")).2.2.1
      "http://evil.example/x" rfl (by decide),
    (previewDisable_unconditional none).2.2.2 rfl⟩

/-- C10: when `PREVIEW_SECRET` is unset or empty the enable endpoint
performs no secret check at all — any rooted url succeeds whatever the
supplied secret, including an absent one — and the 401 branch is taken
exactly when a non-empty secret is configured and the supplied secret
differs from it. -/
theorem previewEnable_secret_optional :
    ∀ (es url secret status locale : Option String),
      ((es = none ∨ es = some "") → ∀ u, url = some u → jsStartsWith u "/" = true →
        (previewEnable es url secret status locale).status = 307 ∧
        (previewEnable es url secret status locale).draftEnabled = true ∧
        (∃ t, (previewEnable es url secret status locale).redirect = some t ∧
          t.url = u)) ∧
      ((previewEnable es url secret status locale).status = 401 ↔
        (∃ e, es = some e ∧ e ≠ "" ∧ secret ≠ some e)) := by
  intro es url secret status locale
  constructor
  · intro hes u hurl hsw
    subst hurl
    have hsec : ¬(strTruthy es = true ∧ secret ≠ es) := by
      rintro ⟨h1, h2⟩
      rcases hes with h | h <;> subst h <;> simp [strTruthy] at h1
    have hbad : ¬(u = "" ∨ jsStartsWith u "/" = false) := by
      rintro (he | hf)
      · subst he
        exact absurd hsw (by decide)
      · rw [hsw] at hf
        cases hf
    rw [previewEnable_some, if_neg hsec, if_neg hbad]
    exact ⟨rfl, rfl, ⟨_, rfl, rfl⟩⟩
  · constructor
    · intro h
      by_cases hsec : strTruthy es = true ∧ secret ≠ es
      · cases es with
        | none => simp [strTruthy] at hsec
        | some e =>
          refine ⟨e, rfl, ?_, hsec.2⟩
          have h1 := hsec.1
          simpa [strTruthy] using h1
      · exfalso
        cases url with
        | none =>
          rw [previewEnable_none, if_neg hsec] at h
          cases h
        | some u =>
          rw [previewEnable_some, if_neg hsec] at h
          by_cases hbad : u = "" ∨ jsStartsWith u "/" = false
          · rw [if_pos hbad] at h
            cases h
          · rw [if_neg hbad] at h
            cases h
    · rintro ⟨e, he, hne, hsecret⟩
      subst he
      have hsec : strTruthy (some e) = true ∧ secret ≠ some e := by
        refine ⟨?_, hsecret⟩
        simp [strTruthy, hne]
      cases url with
      | none => rw [previewEnable_none, if_pos hsec]
      | some u => rw [previewEnable_some, if_pos hsec]

/-- C10 (witness): no configured secret, no supplied secret, rooted url:
the endpoint enables drafts and redirects. -/
theorem previewEnable_secret_optional_witness :
    (previewEnable none (some "/blog/foo") none none none).status = 307 ∧
    (previewEnable none (some "/blog/foo") none none none).draftEnabled = true ∧
    (∃ t, (previewEnable none (some "/blog/foo") none none none).redirect = some t ∧
      t.url = "/blog/foo") :=
  (previewEnable_secret_optional none (some "/blog/foo") none none none).1
    (Or.inl rfl) "/blog/foo" rfl (by decide)

/-- C8 (counterexample): the claim that every plain string maps to a
singleton asset fails twice — the blog-page version returns the empty
sequence for the (falsy) empty string, and the about-page version
returns the empty sequence for every string, having no string case. -/
theorem extractMediaItems_string_cex :
    extractMediaItems (Json.str "") = [] ∧
    extractMediaItemsAbout (Json.str "/x.png") = [] := by
  constructor
  · simp [extractMediaItems]
  · simp [extractMediaItemsAbout]

/-- C8 (amended): the blog-page `extractMediaItems` maps every non-empty
string `s` to the singleton `[{url: s}]` and the empty string to the
empty sequence; the about-page variant maps every string to the empty
sequence; `null` yields the empty sequence; and an array yields the
one-level-flattened concatenation of the recursive results with falsy
entries filtered out (both variants). -/
theorem extractMediaItems_strings_and_sequences :
    (∀ s : String, s ≠ "" →
      extractMediaItems (Json.str s) = [Json.obj [("url", Json.str s)]]) ∧
    extractMediaItems (Json.str "") = [] ∧
    (∀ s : String, extractMediaItemsAbout (Json.str s) = []) ∧
    extractMediaItems Json.null = [] ∧
    extractMediaItemsAbout Json.null = [] ∧
    (∀ xs : List Json, extractMediaItems (Json.arr xs) =
      ((xs.map extractMediaItems).flatten).filter Json.truthy) ∧
    (∀ xs : List Json, extractMediaItemsAbout (Json.arr xs) =
      ((xs.map extractMediaItemsAbout).flatten).filter Json.truthy) := by
  refine ⟨fun s hs => extractMediaItems_str hs, ?_, extractMediaItemsAbout_str,
    by simp [extractMediaItems], by simp [extractMediaItemsAbout],
    extractMediaItems_arr, extractMediaItemsAbout_arr⟩
  simp [extractMediaItems]

/-- C8 (witness): the non-empty string `/x.png` becomes the singleton
asset `[{url: "/x.png"}]` under the blog-page version. -/
theorem extractMediaItems_strings_and_sequences_witness :
    extractMediaItems (Json.str "/x.png") = [Json.obj [("url", Json.str "/x.png")]] :=
  extractMediaItems_strings_and_sequences.1 "/x.png" (by decide)

/-- C9: `extractMediaItems` terminates on every finite input — the
fuel-indexed rendition of the recursion, given fuel equal to the
structural size of the input, never exhausts its fuel and computes
exactly the value of the direct recursion. -/
theorem extractMediaItems_terminates (v : Json) :
    extractMediaItemsFuel v.size v = some (extractMediaItems v) :=
  extractMediaItemsFuel_eq v.size v (Nat.le_refl v.size)

end Agrobank
